import Mathlib

/-!
Verification development for the `leak` single-file HTTP file-sharing server
(`src/main.rs`).  The request-handling core — path sandboxing, the hand-rolled
multipart parser, the ZIP archive builder, directory listing, auth gating —
is shallowly embedded below.  Bytes are `Nat`, strings are `List Char`,
filesystem paths are component lists (`List (List Char)`), and the filesystem
itself is an abstract record of total functions so that every handler is an
executable Lean function returning its response together with the trace of
filesystem operations it performs.
-/

set_option maxRecDepth 10000

namespace Leak

/-- Strings are modelled as lists of characters (Rust `&str` / `String`). -/
abbrev Str := List Char

/-- Coerce a Lean string literal to the model's string type. -/
def S (s : String) : Str := s.toList

/-- Rust `str::to_lowercase` (ASCII-relevant part). -/
def lowerStr (s : Str) : Str := s.map Char.toLower

/-- Lexicographic comparison of strings by scalar value, `a ≤ b`;
Rust `Ord for str` compares UTF-8 bytes, which for valid strings agrees
with scalar-value order. -/
def lexLe : Str → Str → Bool
  | [], _ => true
  | _ :: _, [] => false
  | a :: as, b :: bs =>
    if a.toNat < b.toNat then true
    else if b.toNat < a.toNat then false
    else lexLe as bs

/-- Index of the first occurrence of `pat` in `l` (Rust `str::find` /
`slice::windows().position()`); `none` if absent. -/
def findSub [BEq α] (pat : List α) : List α → Option Nat
  | [] => if pat.isPrefixOf ([] : List α) then some 0 else none
  | a :: t =>
    if pat.isPrefixOf (a :: t) then some 0
    else (findSub pat t).map (· + 1)

/-- Rust `str::contains` (substring test). -/
def containsSub [BEq α] (pat l : List α) : Bool := (findSub pat l).isSome

/-- Rust `str::split(char)`: splits keeping empty pieces; `""` yields `[""]`. -/
def splitOnChar (c : Char) : Str → List Str
  | [] => [[]]
  | a :: t =>
    let r := splitOnChar c t
    if a = c then [] :: r
    else
      match r with
      | h :: rest => (a :: h) :: rest
      | [] => [[a]]

/-- Strip one trailing carriage return. -/
def stripCR (l : Str) : Str := if l.getLast? = some '\r' then l.dropLast else l

/-- Rust `str::lines`: split at `\n`, strip a `\r` before each `\n`,
with the final line terminator optional. -/
def linesOf (s : Str) : List Str :=
  let parts := splitOnChar '\n' s
  parts.dropLast.map stripCR ++
    (match parts.getLast? with
     | some [] => []
     | some l => [l]
     | none => [])

/-- Rust `name.rsplit(['/', '\\']).next().unwrap_or(name)`: the final
path component of a possibly Windows-style path. -/
def afterLastSlash (n : Str) : Str :=
  (n.reverse.takeWhile (fun c => !((c == '/') || (c == '\\')))).reverse

/-- ASCII whitespace as trimmed by Rust `str::trim`. -/
def isWsChar (c : Char) : Bool :=
  c == ' ' || c == '\t' || c == '\n' || c == '\r' || c == '\x0b' || c == '\x0c'

/-- Rust `str::trim`. -/
def trimWs (s : Str) : Str :=
  ((s.dropWhile isWsChar).reverse.dropWhile isWsChar).reverse

/-- Rust `str::trim_matches(c)`: strip every leading and trailing `c`. -/
def trimMatchesChar (c : Char) (s : Str) : Str :=
  ((s.dropWhile (· == c)).reverse.dropWhile (· == c)).reverse

/-- Value of an ASCII hex digit byte. -/
def hexDigit (b : Nat) : Option Nat :=
  if 48 ≤ b ∧ b ≤ 57 then some (b - 48)
  else if 97 ≤ b ∧ b ≤ 102 then some (b - 87)
  else if 65 ≤ b ∧ b ≤ 70 then some (b - 55)
  else none

/-- `u8::from_str_radix(two-byte string, 16)`: Rust's parser also accepts a
leading plus sign before a single digit. -/
def hex2 (b1 b2 : Nat) : Option Nat :=
  if b1 = 43 then hexDigit b2
  else
    match hexDigit b1, hexDigit b2 with
    | some h, some l => some (16 * h + l)
    | _, _ => none

/-- Byte-level core of `percent_decode` (`src/main.rs:171`): a `%` followed by
two decodable bytes (with at least those two bytes remaining) becomes one
byte; anything else is copied literally. -/
def pctDecodeBytes : List Nat → List Nat
  | [] => []
  | b :: b1 :: b2 :: rest2 =>
    if b = 37 then
      match hex2 b1 b2 with
      | some v => v :: pctDecodeBytes rest2
      | none => b :: pctDecodeBytes (b1 :: b2 :: rest2)
    else b :: pctDecodeBytes (b1 :: b2 :: rest2)
  | b :: rest => b :: pctDecodeBytes rest

/-- UTF-8 encoding of one scalar value (Rust `str::as_bytes` per char). -/
def encodeChar (c : Char) : List Nat :=
  let n := c.toNat
  if n < 128 then [n]
  else if n < 2048 then [192 + n / 64, 128 + n % 64]
  else if n < 65536 then [224 + n / 4096, 128 + (n / 64) % 64, 128 + n % 64]
  else [240 + n / 262144, 128 + (n / 4096) % 64, 128 + (n / 64) % 64, 128 + n % 64]

/-- UTF-8 bytes of a string. -/
def encodeUtf8 (s : Str) : List Nat := s.flatMap encodeChar

/-- Is `b` a UTF-8 continuation byte? -/
def contByte (b : Nat) : Bool := 128 ≤ b && b < 192

/-- Valid second-byte range for a three-byte sequence led by `b`. -/
def cont2ok (b b1 : Nat) : Bool :=
  if b = 224 then 160 ≤ b1 && b1 ≤ 191
  else if b = 237 then 128 ≤ b1 && b1 ≤ 159
  else contByte b1

/-- Valid second-byte range for a four-byte sequence led by `b`. -/
def cont3ok (b b1 : Nat) : Bool :=
  if b = 240 then 144 ≤ b1 && b1 ≤ 191
  else if b = 244 then 128 ≤ b1 && b1 ≤ 143
  else contByte b1

/-- The Unicode replacement character. -/
def repl : Char := Char.ofNat 0xFFFD

/-- Fuel-bounded body of `lossyDecode`; each step consumes at least one
byte, so fuel `length + 1` is always sufficient. -/
def lossyDecodeF : Nat → List Nat → Str
  | 0, _ => []
  | _ + 1, [] => []
  | fuel + 1, b :: rest =>
    if b < 128 then Char.ofNat b :: lossyDecodeF fuel rest
    else if 194 ≤ b ∧ b ≤ 223 then
      match rest with
      | b1 :: rest1 =>
        if contByte b1 then Char.ofNat ((b % 32) * 64 + b1 % 64) :: lossyDecodeF fuel rest1
        else repl :: lossyDecodeF fuel rest
      | [] => repl :: lossyDecodeF fuel rest
    else if 224 ≤ b ∧ b ≤ 239 then
      match rest with
      | b1 :: b2 :: rest2 =>
        if cont2ok b b1 && contByte b2 then
          Char.ofNat ((b % 16) * 4096 + (b1 % 64) * 64 + b2 % 64) :: lossyDecodeF fuel rest2
        else repl :: lossyDecodeF fuel rest
      | _ => repl :: lossyDecodeF fuel rest
    else if 240 ≤ b ∧ b ≤ 244 then
      match rest with
      | b1 :: b2 :: b3 :: rest3 =>
        if cont3ok b b1 && contByte b2 && contByte b3 then
          Char.ofNat ((b % 8) * 262144 + (b1 % 64) * 4096 + (b2 % 64) * 64 + b3 % 64)
            :: lossyDecodeF fuel rest3
        else repl :: lossyDecodeF fuel rest
      | _ => repl :: lossyDecodeF fuel rest
    else repl :: lossyDecodeF fuel rest

/-- Rust `String::from_utf8_lossy`: decode UTF-8, replacing ill-formed
input with U+FFFD. -/
def lossyDecode (l : List Nat) : Str := lossyDecodeF (l.length + 1) l

/-- `percent_decode` (`src/main.rs:171-185`): decode the string's UTF-8
bytes percent-wise, then re-decode lossily. -/
def percent_decode (s : Str) : Str := lossyDecode (pctDecodeBytes (encodeUtf8 s))

/-- `extract_json_string_array` (`src/main.rs:256-271`): tolerant extraction
of a quoted-string array for `key`; any missing piece yields `[]`. -/
def extract_json_string_array (json : Str) (key : Str) : List Str :=
  let pat := '"' :: key ++ ['"']
  match findSub pat json with
  | none => []
  | some kp =>
    let afterKey := json.drop (kp + pat.length)
    match findSub ['['] afterKey with
    | none => []
    | some bp =>
      let afterBracket := afterKey.drop (bp + 1)
      match findSub [']'] afterBracket with
      | none => []
      | some cp =>
        (splitOnChar ',' (afterBracket.take cp)).filterMap fun piece =>
          let t := trimMatchesChar '"' (trimWs piece)
          if t = [] then none else some t

/-- One decoded upload part (`struct UploadedFile`, `src/main.rs:709`). -/
structure UploadedFile where
  filename : Str
  data : List Nat
deriving DecidableEq

/-- The boundary-scanning loop of `parse_multipart` (`src/main.rs:714-720`):
positions just past each occurrence of `delim`, scanning forward and skipping
the length of the delimiter after each hit; the loop exits once fewer than
`delim.length` bytes remain.  `fuel` bounds the iteration and is passed as
`body.length + 1`, which is always sufficient. -/
def scanStarts (delim : List Nat) : Nat → List Nat → Nat → List Nat
  | 0, _, _ => []
  | fuel + 1, rem, pos =>
    if rem.length < delim.length then []
    else if delim.isPrefixOf rem then
      (pos + delim.length) :: scanStarts delim fuel (rem.drop delim.length) (pos + delim.length)
    else
      match rem with
      | [] => []
      | _ :: t => scanStarts delim fuel t (pos + 1)

/-- Header-line scan of `extract_filename` (`src/main.rs:738-751`). -/
def extractLines : List Str → Option Str
  | [] => none
  | line :: rest =>
    if containsSub (S "content-disposition") (lowerStr line) then
      match findSub (S "filename=\"") line with
      | some pos =>
        match findSub juststr (line.drop (pos + 10)) with
        | some e => some (afterLastSlash ((line.drop (pos + 10)).take e))
        | none => extractLines rest
      | none => extractLines rest
    else extractLines rest
where
  juststr : Str := ['"']

/-- `extract_filename` (`src/main.rs:738-751`). -/
def extract_filename (headers : Str) : Option Str := extractLines (linesOf headers)

/-- Body of the per-part loop of `parse_multipart` (`src/main.rs:721-734`):
slice out `body[s..e]`, strip a leading CRLF, drop the closing marker,
split headers from payload at the first blank line, strip one trailing
CRLF from the payload, and keep the part only if a nonempty filename
was extracted. -/
def mkPart (body : List Nat) (s e : Nat) : Option UploadedFile :=
  if e ≤ s then none
  else
    let part0 := (body.drop s).take (e - s)
    let part := if [13, 10].isPrefixOf part0 then part0.drop 2 else part0
    if [45, 45].isPrefixOf part then none
    else
      match findSub [13, 10, 13, 10] part with
      | none => none
      | some sep =>
        let headers := lossyDecode (part.take sep)
        let data0 := part.drop (sep + 4)
        let data := if [13, 10].isSuffixOf data0 then data0.take (data0.length - 2) else data0
        match extract_filename headers with
        | some fn => if fn = [] then none else some { filename := fn, data := data }
        | none => none

/-- Iteration over the boundary positions (`src/main.rs:721-722`): each span
runs to the next position minus the delimiter length, the last to the end of
the body. -/
def partsLoop (body : List Nat) (dl : Nat) : List Nat → List UploadedFile
  | [] => []
  | s :: rest =>
    let e :=
      match rest with
      | s2 :: _ => s2 - dl
      | [] => body.length
    (mkPart body s e).toList ++ partsLoop body dl rest

/-- `parse_multipart` (`src/main.rs:711-736`). -/
def parse_multipart (body : List Nat) (boundary : Str) : List UploadedFile :=
  let delim := 45 :: 45 :: encodeUtf8 boundary
  partsLoop body delim.length (scanStarts delim (body.length + 1) body 0)

/-- An HTTP request as seen by `serve`: method, URI path, and the headers
and body the handlers consult. -/
structure Request where
  method : Str
  path : Str
  authorization : Option Str
  contentType : Option Str
  body : List Nat

/-- `check_auth` (`src/main.rs:761-770`): accept only an `Authorization`
header of the exact shape `Basic <expected>`. -/
def check_auth (req : Request) (expected : Str) : Bool :=
  match req.authorization with
  | some v => (S "Basic ").isPrefixOf v && v.drop 6 == expected
  | none => false

/-- `get_boundary` (`src/main.rs:753-757`): require a multipart content type
and take the piece after the first `boundary=` (up to a second occurrence),
trimmed of whitespace and quotes. -/
def get_boundary (req : Request) : Option Str :=
  match req.contentType with
  | none => none
  | some ct =>
    if containsSub (S "multipart/form-data") ct then
      match findSub (S "boundary=") ct with
      | none => none
      | some i =>
        let after := ct.drop (i + 9)
        let piece :=
          match findSub (S "boundary=") after with
          | some j => after.take j
          | none => after
        some (trimMatchesChar '"' (trimWs piece))
    else none

/-- The filename-sanitising map of the upload handler (`src/main.rs:843-845`):
keep alphanumerics, dot, dash, underscore and space; replace everything else
with an underscore.  `alnum` stands for Rust's `char::is_alphanumeric`. -/
def sanitize (alnum : Char → Bool) (name : Str) : Str :=
  name.map fun c =>
    if alnum c || c == '.' || c == '-' || c == '_' || c == ' ' then c else '_'

/-- Filesystem paths as absolute component lists; Rust `Path::starts_with`
compares component-wise, which is `List.isPrefixOf` here. -/
abbrev Path := List Str

/-- File metadata as consulted by the listing code (`entry.metadata()`). -/
structure Meta where
  isDir : Bool
  len : Nat
  modified : Option Nat
deriving DecidableEq

/-- The abstract filesystem the server runs against.  `canon` models
`Path::canonicalize` (symlink and dot-segment resolution, failing on missing
paths); the other fields model the corresponding `std::fs`/`tokio::fs`
calls, with `none`/`false` standing for the error case. -/
structure FS where
  canon : Path → Option Path
  isFile : Path → Bool
  isDir : Path → Bool
  readDir : Path → Option (List Str)
  read : Path → Option (List Nat)
  meta : Path → Option Meta
  pathExists : Path → Bool
  createOk : Path → Bool

/-- A filesystem operation issued by a handler: the content-touching calls
(read, write/create, directory listing) that the sandboxing invariant
quantifies over. -/
inductive FSOp where
  | read (p : Path)
  | write (p : Path) (data : List Nat)
  | list (p : Path)
deriving DecidableEq

/-- The path an operation touches. -/
def FSOp.path : FSOp → Path
  | .read p => p
  | .write p _ => p
  | .list p => p

/-- `struct ServerConfig` (`src/main.rs:69-72`): the sandbox root and the
optional base64-encoded credential. -/
structure ServerConfig where
  root : Path
  auth : Option Str

/-- One row of the directory listing (`src/main.rs:414`,
`entries: Vec<(String, bool, u64, u64)>`). -/
structure DirEntry where
  name : Str
  isDir : Bool
  size : Nat
  age : Nat
deriving DecidableEq

/-- The sort comparator of `render_directory` (`src/main.rs:432`):
`b.1.cmp(&a.1).then_with(|| a.0.to_lowercase().cmp(&b.0.to_lowercase()))`
is not-greater, i.e. directories first, then case-insensitive name order. -/
def entryLE (a b : DirEntry) : Bool :=
  if a.isDir = b.isDir then lexLe (lowerStr a.name) (lowerStr b.name) else a.isDir

/-- The per-entry accumulation of `render_directory` (`src/main.rs:418-429`):
skip dot-entries; a failed metadata read degrades to not-a-directory, size 0
and age 0.  `now` is the current Unix time used for the age computation. -/
def listRaw (fs : FS) (now : Nat) (dirPath : Path) (names : List Str) : List DirEntry :=
  names.filterMap fun name =>
    if name.head? = some '.' then none
    else
      let m := fs.meta (dirPath ++ [name])
      some { name := name
             isDir := (m.map Meta.isDir).getD false
             size := (m.map Meta.len).getD 0
             age := ((m.bind Meta.modified).map (fun t => now - t)).getD 0 }

/-- The entry computation of `render_directory` (`src/main.rs:413-432`):
collect the entries (none when `read_dir` fails) and stable-sort them with
the comparator `entryLE` (Rust `sort_by` is a stable sort; `mergeSort` is
the stable sort here). -/
def render_directory (fs : FS) (now : Nat) (dirPath : Path) : List DirEntry :=
  match fs.readDir dirPath with
  | none => []
  | some names => List.mergeSort (listRaw fs now dirPath names) entryLE

/-- One iteration of the directory loop in `add_path_to_zip`
(`src/main.rs:686-700`): for each entry of `dir`, skip it unless its path
stays under `root` and its name is not hidden; store files immediately and
collect subdirectories for the work-list.  A failing file read makes the
Rust function return `Err` after having started the entry, so the result's
final flag is false and the remaining entries are abandoned. -/
def processEntries (fs : FS) (root : Path) (dir : Path) (pfx : Str) :
    List Str → List (Str × List Nat) × List FSOp × List (Path × Str) × Bool
  | [] => ([], [], [], true)
  | name :: rest =>
    let path := dir ++ [name]
    if !(root.isPrefixOf path) then processEntries fs root dir pfx rest
    else if name.head? = some '.' then processEntries fs root dir pfx rest
    else
      let arc := if pfx = [] then name else pfx ++ '/' :: name
      if fs.isFile path then
        match fs.read path with
        | some d =>
          let r := processEntries fs root dir pfx rest
          ((arc, d) :: r.1, FSOp.read path :: r.2.1, r.2.2.1, r.2.2.2)
        | none => ([(arc, [])], [FSOp.read path], [], false)
      else if fs.isDir path then
        let r := processEntries fs root dir pfx rest
        (r.1, r.2.1, (path, arc) :: r.2.2.1, r.2.2.2)
      else processEntries fs root dir pfx rest

/-- The explicit work-list loop of `add_path_to_zip` (`src/main.rs:684-702`).
Rust pops from the end of its `Vec`; here the head of the list is the top of
the stack, so freshly collected subdirectories are pushed reversed.  `fuel`
bounds the number of directories visited. -/
def zipWalk (fs : FS) (root : Path) : Nat → List (Path × Str) → List (Str × List Nat) × List FSOp
  | 0, _ => ([], [])
  | _ + 1, [] => ([], [])
  | fuel + 1, (dir, pfx) :: stack =>
    match fs.readDir dir with
    | none =>
      let r := zipWalk fs root fuel stack
      (r.1, FSOp.list dir :: r.2)
    | some names =>
      let p := processEntries fs root dir pfx names
      if p.2.2.2 then
        let r := zipWalk fs root fuel (p.2.2.1.reverse ++ stack)
        (p.1 ++ r.1, FSOp.list dir :: (p.2.1 ++ r.2))
      else (p.1, FSOp.list dir :: p.2.1)

/-- `add_path_to_zip` (`src/main.rs:672-705`): a file is stored under
`arcName` (the entry is created before the read, so a failed read leaves an
empty entry and aborts); a directory is walked with the work-list. -/
def add_path_to_zip (fs : FS) (root : Path) (fuel : Nat) (fsPath : Path) (arcName : Str) :
    List (Str × List Nat) × List FSOp :=
  if fs.isFile fsPath then
    match fs.read fsPath with
    | some d => ([(arcName, d)], [FSOp.read fsPath])
    | none => ([(arcName, [])], [FSOp.read fsPath])
  else if fs.isDir fsPath then zipWalk fs root fuel [(fsPath, arcName)]
  else ([], [])

/-- Split a decoded request path into components; empty segments vanish
(as they do under Rust `Path::components`). -/
def splitComponents (s : Str) : List Str := (splitOnChar '/' s).filter (· ≠ [])

/-- Rust `root.join(&decoded)`: an absolute right operand replaces the root. -/
def joinPath (root : Path) (s : Str) : Path :=
  if s.head? = some '/' then splitComponents s else root ++ splitComponents s

/-- The shared resolution match (`src/main.rs:812-815`, `886-889`, `925-929`):
canonicalize the joined path and accept it only when the result has `root`
as a component-wise ancestor; an empty decoded path falls back to `root`
itself. -/
def resolve_under_root (fs : FS) (root : Path) (decoded : Str) : Option Path :=
  match fs.canon (joinPath root decoded) with
  | some c =>
    if root.isPrefixOf c then some c
    else if decoded = [] then some root
    else none
  | none => if decoded = [] then some root else none

/-- Fuel-bounded body of `trimEndMatchesAll`. -/
def trimEndMatchesAllF (pat : Str) : Nat → Str → Str
  | 0, s => s
  | fuel + 1, s =>
    if pat ≠ [] ∧ pat.isSuffixOf s then trimEndMatchesAllF pat fuel (s.take (s.length - pat.length))
    else s

/-- Rust `str::trim_end_matches(pat)`: remove every trailing occurrence. -/
def trimEndMatchesAll (s pat : Str) : Str := trimEndMatchesAllF pat (s.length + 1) s

/-- Resolution of the upload target directory (`src/main.rs:806-815`). -/
def upload_resolve (fs : FS) (root : Path) (uriPath : Str) : Option Path :=
  let dirUri0 := trimEndMatchesAll uriPath (S "/__upload")
  let dirUri := if dirUri0 = [] then S "/" else dirUri0
  resolve_under_root fs root (percent_decode (dirUri.dropWhile (· == '/')))

/-- Resolution of a GET/static request path (`src/main.rs:921-929`). -/
def static_resolve (fs : FS) (root : Path) (uriPath : Str) : Option Path :=
  resolve_under_root fs root (percent_decode (uriPath.dropWhile (· == '/')))

/-- Per-selection resolution of the download handler (`src/main.rs:882-894`):
any failure (canonicalization error, escape, empty decoded path) skips the
entry; on success the archive entry name is the final path component,
falling back to the decoded string. -/
def download_resolve (fs : FS) (root : Path) (pathStr : Str) : Option (Path × Str) :=
  let decoded := percent_decode (pathStr.dropWhile (· == '/'))
  match fs.canon (joinPath root decoded) with
  | some c =>
    if root.isPrefixOf c then some (c, (c.getLast?).getD decoded) else none
  | none => none

/-- The selection loop of the download handler (`src/main.rs:882-896`):
resolve each entry independently, skipping failures, and append the zip
entries and filesystem operations of `add_path_to_zip` (whose errors the
caller discards). -/
def buildZip (fs : FS) (root : Path) (fuel : Nat) : List Str → List (Str × List Nat) × List FSOp
  | [] => ([], [])
  | p :: rest =>
    match download_resolve fs root p with
    | none => buildZip fs root fuel rest
    | some ca =>
      let r := add_path_to_zip fs root fuel ca.1 ca.2
      let r2 := buildZip fs root fuel rest
      (r.1 ++ r2.1, r.2 ++ r2.2)

/-- A handler's observable outcome: HTTP status, the challenge header if
any, the trace of filesystem operations, the archive entries streamed by the
download handler (the ZIP codec itself is an external collaborator), and the
listing data rendered for a directory. -/
structure ServeOut where
  status : Nat
  wwwAuthenticate : Option Str
  ops : List FSOp
  zips : List (Str × List Nat)
  listing : Option (List DirEntry)
deriving DecidableEq

/-- A plain text response with the given status and trace. -/
def textOut (status : Nat) (ops : List FSOp) : ServeOut :=
  { status := status, wwwAuthenticate := none, ops := ops, zips := [], listing := none }

/-- `auth_required_response` (`src/main.rs:772-779`): 401 with a
`WWW-Authenticate: Basic realm="leak"` challenge, before any handler runs. -/
def auth_required_response : ServeOut :=
  { status := 401, wwwAuthenticate := some (S "Basic realm=\"leak\""), ops := [],
    zips := [], listing := none }

/-- The per-part body of the upload loop (`src/main.rs:842-859`): sanitize
the filename, drop it when the result is empty or a dot name, re-check that
the destination's parent canonicalizes under root (falling through when
canonicalization fails), and emit the write when `File::create` succeeds. -/
def uploadWriteOp (fs : FS) (root : Path) (alnum : Char → Bool) (canonical : Path)
    (f : UploadedFile) : Option FSOp :=
  let safe := sanitize alnum f.filename
  if safe = [] ∨ safe = S "." ∨ safe = S ".." then none
  else
    let dest := canonical ++ [safe]
    let par := if dest = [] then canonical else dest.dropLast
    match fs.canon par with
    | some pc =>
      if !(root.isPrefixOf pc) then none
      else if fs.createOk dest then some (FSOp.write dest f.data) else none
    | none => if fs.createOk dest then some (FSOp.write dest f.data) else none

/-- The upload handler (`src/main.rs:805-860`): resolve the directory,
require a directory and a boundary, enforce the 500 MiB ceiling on the
collected body, parse the multipart payload, and write each surviving part. -/
def serveUpload (fs : FS) (cfg : ServerConfig) (alnum : Char → Bool) (req : Request) : ServeOut :=
  match upload_resolve fs cfg.root req.path with
  | none => textOut 400 []
  | some canonical =>
    if !fs.isDir canonical then textOut 400 []
    else
      match get_boundary req with
      | none => textOut 400 []
      | some boundary =>
        if 500 * 1024 * 1024 < req.body.length then textOut 413 []
        else
          if parse_multipart req.body boundary = [] then textOut 400 []
          else
            textOut 200
              ((parse_multipart req.body boundary).filterMap
                (uploadWriteOp fs cfg.root alnum canonical))

/-- The download handler (`src/main.rs:864-918`): extract the `files` array
from the body, reject an empty selection, and build the archive; the model's
zip build is total, matching the fact that per-entry failures are discarded
(`let _ = add_path_to_zip(..)`). -/
def serveDownload (fs : FS) (cfg : ServerConfig) (fuel : Nat) (req : Request) : ServeOut :=
  let paths := extract_json_string_array (lossyDecode req.body) (S "files")
  if paths = [] then textOut 400 []
  else
    let r := buildZip fs cfg.root fuel paths
    { status := 200, wwwAuthenticate := none, ops := r.2, zips := r.1, listing := none }

/-- The static handler (`src/main.rs:921-945`): resolve the path (404 with
no filesystem call on failure); serve `index.html` from a directory when it
exists and is readable, otherwise render the listing; stream a file,
answering 404 if the read fails. -/
def serveStatic (fs : FS) (cfg : ServerConfig) (now : Nat) (req : Request) : ServeOut :=
  match static_resolve fs cfg.root req.path with
  | none => textOut 404 []
  | some canonical =>
    if fs.isDir canonical then
      let index := canonical ++ [S "index.html"]
      if fs.pathExists index then
        match fs.read index with
        | some _ => textOut 200 [FSOp.read index]
        | none =>
          { status := 200, wwwAuthenticate := none,
            ops := [FSOp.read index, FSOp.list canonical], zips := [],
            listing := some (render_directory fs now canonical) }
      else
        { status := 200, wwwAuthenticate := none, ops := [FSOp.list canonical], zips := [],
          listing := some (render_directory fs now canonical) }
    else
      match fs.read canonical with
      | some _ => textOut 200 [FSOp.read canonical]
      | none => textOut 404 [FSOp.read canonical]

/-- Routing predicate for `POST {dir}/__upload` (`src/main.rs:805`). -/
def isUploadRoute (req : Request) : Bool :=
  req.method == S "POST" && (S "/__upload").isSuffixOf req.path

/-- Routing predicate for `POST {dir}/__download` (`src/main.rs:864`). -/
def isDownloadRoute (req : Request) : Bool :=
  req.method == S "POST" && (S "/__download").isSuffixOf req.path

/-- The routing precedence of `serve` (`src/main.rs:805,864,921`): upload,
then download, then the static handler for everything else. -/
def serveRoutes (fs : FS) (cfg : ServerConfig) (alnum : Char → Bool) (now fuel : Nat)
    (req : Request) : ServeOut :=
  if isUploadRoute req then serveUpload fs cfg alnum req
  else if isDownloadRoute req then serveDownload fs cfg fuel req
  else serveStatic fs cfg now req

/-- `serve` (`src/main.rs:792-946`): the auth gate runs before any routing;
a configured credential that is absent or mismatched short-circuits to the
401 challenge response. -/
def serve (fs : FS) (cfg : ServerConfig) (alnum : Char → Bool) (now fuel : Nat)
    (req : Request) : ServeOut :=
  match cfg.auth with
  | some expected =>
    if !check_auth req expected then auth_required_response
    else serveRoutes fs cfg alnum now fuel req
  | none => serveRoutes fs cfg alnum now fuel req

/-- Does the request pass the auth gate? -/
def authPasses (cfg : ServerConfig) (req : Request) : Bool :=
  match cfg.auth with
  | some e => check_auth req e
  | none => true

/-- Effect of one filesystem operation on stored file contents:
`File::create` + `write_all` replaces the file at the destination. -/
def applyOp (st : Path → Option (List Nat)) : FSOp → Path → Option (List Nat)
  | FSOp.write p d => fun q => if q = p then some d else st q
  | _ => st

/-- Replay a trace of filesystem operations over a content store. -/
def applyTrace (st : Path → Option (List Nat)) (ops : List FSOp) : Path → Option (List Nat) :=
  ops.foldl applyOp st

/-- The data of the last write to `p` in a trace, if any. -/
def lastWriteTo : List FSOp → Path → Option (List Nat)
  | [], _ => none
  | op :: rest, p =>
    match lastWriteTo rest p with
    | some d => some d
    | none =>
      match op with
      | FSOp.write q d => if q = p then some d else none
      | _ => none

/-! ### Concrete fixtures

A small concrete filesystem (root `/srv` holding file `f.txt`, directory `d`
with files `x.txt`, `y.txt`, and an entry `g.bin` whose metadata read fails)
and concrete requests, used to instantiate the theorems below. -/

/-- The demo sandbox root `/srv`. -/
def demoRoot : Path := [S "srv"]

/-- `/srv/f.txt`. -/
def demoFile : Path := [S "srv", S "f.txt"]

/-- `/srv/d`. -/
def demoDir : Path := [S "srv", S "d"]

/-- `/srv/d/x.txt`. -/
def demoX : Path := [S "srv", S "d", S "x.txt"]

/-- `/srv/d/y.txt`. -/
def demoY : Path := [S "srv", S "d", S "y.txt"]

/-- A concrete filesystem for witnesses: canonicalization succeeds exactly on
the existing paths and is the identity there. -/
def fsDemo : FS :=
  { canon := fun p =>
      if p == demoRoot || p == demoFile || p == demoDir || p == demoX || p == demoY
      then some p else none
    isFile := fun p => p == demoFile || p == demoX || p == demoY
    isDir := fun p => p == demoRoot || p == demoDir
    readDir := fun p =>
      if p == demoRoot then some [S "f.txt", S "d", S "g.bin"]
      else if p == demoDir then some [S "x.txt", S "y.txt"]
      else none
    read := fun p =>
      if p == demoFile then some [70]
      else if p == demoX then some [1]
      else if p == demoY then some [2]
      else none
    meta := fun p =>
      if p == demoDir then some { isDir := true, len := 0, modified := some 5 }
      else if p == demoFile then some { isDir := false, len := 3, modified := some 7 }
      else none
    pathExists := fun _ => false
    createOk := fun _ => true }

/-- Demo config without a credential. -/
def cfgDemo : ServerConfig := { root := demoRoot, auth := none }

/-- Demo config with a configured credential (base64 of `user:pass`). -/
def cfgAuthDemo : ServerConfig := { root := demoRoot, auth := some (S "dXNlcjpwYXNz") }

/-- A GET request carrying no credential. -/
def reqNoAuthDemo : Request :=
  { method := S "GET", path := S "/f.txt", authorization := none,
    contentType := none, body := [] }

/-- A GET request whose percent-decoded path climbs out of the root. -/
def reqTravDemo : Request :=
  { method := S "GET", path := S "/%2e%2e/secret", authorization := none,
    contentType := none, body := [] }

/-- A download request selecting one file and one directory of two files. -/
def reqDLDemo : Request :=
  { method := S "POST", path := S "/__download", authorization := none,
    contentType := none,
    body := encodeUtf8 (S "\"files\": [\"/f.txt\", \"/d\"]") }

/-- Multipart upload body with a single part `a.txt` holding `payload`. -/
def upBodyDemo (payload : Str) : List Nat :=
  encodeUtf8
    (S "--X\r\nContent-Disposition: form-data; name=\"file\"; filename=\"a.txt\"\r\n\r\n"
      ++ payload ++ S "\r\n--X--\r\n")

/-- An upload request to the root directory with a single part `a.txt`. -/
def upReqDemo (payload : Str) : Request :=
  { method := S "POST", path := S "/__upload", authorization := none,
    contentType := some (S "multipart/form-data; boundary=X"),
    body := upBodyDemo payload }

/-- An upload request whose body exceeds the 500 MiB ceiling by one byte. -/
def reqBigDemo : Request :=
  { method := S "POST", path := S "/__upload", authorization := none,
    contentType := some (S "multipart/form-data; boundary=X"),
    body := List.replicate (500 * 1024 * 1024 + 1) 0 }

/-- The two-part multipart body of the specification's parsing example:
boundary `X`, parts `a.txt` (`hello`) and `b.txt` (`world`). -/
def bodyC3 : List Nat :=
  encodeUtf8
    (S "--X\r\nContent-Disposition: form-data; name=\"file\"; filename=\"a.txt\"\r\n\r\nhello\r\n--X\r\nContent-Disposition: form-data; name=\"file\"; filename=\"b.txt\"\r\n\r\nworld\r\n--X--\r\n")

/-- A multipart body whose first part has no filename attribute and whose
second part is the file `b.txt`. -/
def bodyNoFn : List Nat :=
  encodeUtf8
    (S "--X\r\nContent-Disposition: form-data; name=\"field\"\r\n\r\nignored\r\n--X\r\nContent-Disposition: form-data; name=\"file\"; filename=\"b.txt\"\r\n\r\nworld\r\n--X--\r\n")

end Leak

namespace Leak

/-! ### Theorems -/

/-- Claim C10: `check_auth` accepts a request if and only if its
`Authorization` header is byte-for-byte `Basic ` followed by the configured
base64 credential; any other scheme, casing, or encoding is rejected. -/
theorem check_auth_exact_scheme (req : Request) (expected : Str) :
    check_auth req expected = true ↔ req.authorization = some (S "Basic " ++ expected) := by
  unfold check_auth
  cases h : req.authorization with
  | none => simp
  | some v =>
    simp only [Bool.and_eq_true, List.isPrefixOf_iff_prefix, beq_iff_eq, Option.some.injEq]
    constructor
    · rintro ⟨⟨t, ht⟩, hd⟩
      subst ht
      rw [List.drop_left' (by rfl : (S "Basic ").length = 6)] at hd
      rw [hd]
    · rintro rfl
      exact ⟨⟨expected, rfl⟩, List.drop_left' (by rfl : (S "Basic ").length = 6)⟩

/-- Claim C3: parsing the two-part multipart body with boundary `X` yields
exactly the parts `a.txt` ↦ `hello` and `b.txt` ↦ `world`, in order, with
headers split at the first blank line and the trailing CRLF stripped. -/
theorem multipart_two_parts :
    parse_multipart bodyC3 (S "X") =
      [{ filename := S "a.txt", data := encodeUtf8 (S "hello") },
       { filename := S "b.txt", data := encodeUtf8 (S "world") }] := by
  decide

/-- Claim C2: with a credential configured, a request that fails the check
gets the 401 challenge response: no filesystem operation, no archive entry,
no listing is produced — the gate precedes all routing. -/
theorem auth_gate_first (fs : FS) (cfg : ServerConfig) (alnum : Char → Bool) (now fuel : Nat)
    (req : Request) (e : Str) (hc : cfg.auth = some e) (hf : check_auth req e = false) :
    (serve fs cfg alnum now fuel req).status = 401 ∧
    (serve fs cfg alnum now fuel req).wwwAuthenticate = some (S "Basic realm=\"leak\"") ∧
    (serve fs cfg alnum now fuel req).ops = [] ∧
    (serve fs cfg alnum now fuel req).zips = [] ∧
    (serve fs cfg alnum now fuel req).listing = none := by
  have hs : serve fs cfg alnum now fuel req = auth_required_response := by
    unfold serve
    rw [hc]
    simp [hf]
  rw [hs]
  exact ⟨rfl, rfl, rfl, rfl, rfl⟩

/-- Witness for C2: the demo config with credential and a headerless GET. -/
theorem auth_gate_first_witness :
    cfgAuthDemo.auth = some (S "dXNlcjpwYXNz") ∧
    check_auth reqNoAuthDemo (S "dXNlcjpwYXNz") = false ∧
    (serve fsDemo cfgAuthDemo Char.isAlphanum 100 10 reqNoAuthDemo).status = 401 ∧
    (serve fsDemo cfgAuthDemo Char.isAlphanum 100 10 reqNoAuthDemo).ops = [] :=
  ⟨rfl, rfl,
    (auth_gate_first fsDemo cfgAuthDemo Char.isAlphanum 100 10 reqNoAuthDemo
      (S "dXNlcjpwYXNz") rfl rfl).1,
    (auth_gate_first fsDemo cfgAuthDemo Char.isAlphanum 100 10 reqNoAuthDemo
      (S "dXNlcjpwYXNz") rfl rfl).2.2.1⟩

/-- Replaying a trace over a store: the resulting content at `p` is the last
write to `p` in the trace, falling back to the prior content. -/
theorem applyTrace_eq_lastWrite (p : Path) :
    ∀ (ops : List FSOp) (st : Path → Option (List Nat)),
      applyTrace st ops p = (lastWriteTo ops p).or (st p) := by
  intro ops
  induction ops with
  | nil => intro st; rfl
  | cons op rest ih =>
    intro st
    show applyTrace (applyOp st op) rest p = _
    rw [ih]
    cases hl : lastWriteTo rest p with
    | some d => simp [lastWriteTo, hl]
    | none =>
      cases op with
      | write q d =>
        by_cases hq : q = p
        · subst hq
          simp [lastWriteTo, hl, applyOp]
        · simp [lastWriteTo, hl, applyOp, hq, Ne.symm hq]
      | read q => simp [lastWriteTo, hl, applyOp]
      | list q => simp [lastWriteTo, hl, applyOp]

/-- Claim C8: writes overwrite — replaying any two upload traces leaves at a
path exactly the data of the last write to it, regardless of earlier
content; concretely, uploading `a.txt` twice (`hello`, then `world`) through
`serve` stores exactly `world`. -/
theorem upload_overwrite_last_wins :
    (∀ (st : Path → Option (List Nat)) (ops1 ops2 : List FSOp) (p : Path) (d : List Nat),
      lastWriteTo ops2 p = some d →
      applyTrace (applyTrace st ops1) ops2 p = some d) ∧
    applyTrace
      (applyTrace (fun _ => none)
        (serve fsDemo cfgDemo Char.isAlphanum 100 10 (upReqDemo (S "hello"))).ops)
      (serve fsDemo cfgDemo Char.isAlphanum 100 10 (upReqDemo (S "world"))).ops
      [S "srv", S "a.txt"] = some (encodeUtf8 (S "world")) := by
  constructor
  · intro st ops1 ops2 p d h
    rw [applyTrace_eq_lastWrite, h]
    rfl
  · decide

/-- If the delimiter occurs nowhere in the remaining bytes, the boundary
scan finds no start positions. -/
theorem scanStarts_nil_of_no_occurrence (delim : List Nat) (fuel : Nat) :
    ∀ (rem : List Nat) (pos : Nat), ¬ delim <:+: rem → scanStarts delim fuel rem pos = [] := by
  induction fuel with
  | zero => intro rem pos _; rfl
  | succ n ih =>
    intro rem pos h
    cases rem with
    | nil =>
      have hd : delim ≠ [] := by
        intro hd
        exact h (hd ▸ List.nil_infix)
      unfold scanStarts
      rw [if_pos]
      simpa using List.length_pos.mpr hd
    | cons a t =>
      unfold scanStarts
      by_cases h1 : (a :: t).length < delim.length
      · rw [if_pos h1]
      · rw [if_neg h1]
        by_cases h2 : delim.isPrefixOf (a :: t) = true
        · exact absurd (List.isPrefixOf_iff_prefix.mp h2).isInfix h
        · rw [if_neg h2]
          exact ih t (pos + 1) (fun hi => h (List.infix_cons hi))

/-- A part accepted by `mkPart` always carries a nonempty filename. -/
theorem mkPart_filename_ne (body : List Nat) (s e : Nat) (f : UploadedFile)
    (h : mkPart body s e = some f) : f.filename ≠ [] := by
  unfold mkPart at h
  split at h
  · exact absurd h (by simp)
  · dsimp only at h
    repeat' split at h
    all_goals first
      | exact Option.noConfusion h
      | (injection h with h2; subst h2; assumption)

/-- Every file produced by the per-part loop has a nonempty filename. -/
theorem partsLoop_filename_ne (body : List Nat) (dl : Nat) :
    ∀ (starts : List Nat) (f : UploadedFile), f ∈ partsLoop body dl starts → f.filename ≠ [] := by
  intro starts
  induction starts with
  | nil => intro f h; simp [partsLoop] at h
  | cons s rest ih =>
    intro f h
    unfold partsLoop at h
    rw [List.mem_append] at h
    cases h with
    | inl h =>
      rw [Option.mem_toList, Option.mem_def] at h
      exact mkPart_filename_ne body s _ f h
    | inr h => exact ih f h

/-- Claim C6: the multipart parser is total and tolerant — a body not
containing the boundary delimiter at all parses to no files, every file it
does produce has a nonempty extracted filename, and a part whose headers
carry no filename (here the first part of `bodyNoFn`) is silently dropped. -/
theorem multipart_total_tolerant (body : List Nat) (boundary : Str) :
    (¬ (45 :: 45 :: encodeUtf8 boundary) <:+: body → parse_multipart body boundary = []) ∧
    (∀ f ∈ parse_multipart body boundary, f.filename ≠ []) ∧
    parse_multipart bodyNoFn (S "X") =
      [{ filename := S "b.txt", data := encodeUtf8 (S "world") }] := by
  refine ⟨?_, ?_, by decide⟩
  · intro h
    unfold parse_multipart
    dsimp only
    rw [scanStarts_nil_of_no_occurrence _ _ _ _ h]
    rfl
  · intro f hf
    unfold parse_multipart at hf
    exact partsLoop_filename_ne _ _ _ f hf

/-- Witness for C6: a body with no boundary occurrence parses to no files. -/
theorem multipart_total_tolerant_witness :
    ¬ (45 :: 45 :: encodeUtf8 (S "X")) <:+: ([90, 90, 90] : List Nat) ∧
    parse_multipart [90, 90, 90] (S "X") = [] :=
  ⟨by decide, (multipart_total_tolerant [90, 90, 90] (S "X")).1 (by decide)⟩

/-- Witness for C8: the overwrite law applied to a concrete one-write trace. -/
theorem upload_overwrite_last_wins_witness :
    lastWriteTo [FSOp.write [S "a"] [1]] [S "a"] = some [1] ∧
    applyTrace (applyTrace (fun _ => none) []) [FSOp.write [S "a"] [1]] [S "a"] = some [1] :=
  ⟨by decide,
    upload_overwrite_last_wins.1 (fun _ => none) [] [FSOp.write [S "a"] [1]]
      [S "a"] [1] (by decide)⟩

/-- `lexLe` is total. -/
theorem lexLe_total (s : Str) : ∀ t, lexLe s t = true ∨ lexLe t s = true := by
  induction s with
  | nil => intro t; exact Or.inl rfl
  | cons a as ih =>
    intro t
    cases t with
    | nil => exact Or.inr rfl
    | cons b bs =>
      unfold lexLe
      rcases Nat.lt_trichotomy a.toNat b.toNat with h | h | h
      · left
        rw [if_pos h]
      · rw [if_neg (by omega), if_neg (by omega), if_neg (by omega), if_neg (by omega)]
        exact ih bs
      · right
        rw [if_pos h]

/-- `lexLe` is transitive. -/
theorem lexLe_trans (s : Str) : ∀ t u, lexLe s t = true → lexLe t u = true → lexLe s u = true := by
  induction s with
  | nil => intro t u _ _; rfl
  | cons a as ih =>
    intro t u h1 h2
    cases t with
    | nil => exact absurd h1 (by simp [lexLe])
    | cons b bs =>
      cases u with
      | nil => exact absurd h2 (by simp [lexLe])
      | cons c cs =>
        unfold lexLe at h1 h2 ⊢
        rcases Nat.lt_trichotomy a.toNat c.toNat with h | h | h
        · rw [if_pos h]
        · rw [if_neg (by omega), if_neg (by omega)]
          by_cases hab : a.toNat < b.toNat
          · rw [if_neg (by omega), if_pos (by omega)] at h2
            exact absurd h2 (by simp)
          · by_cases hba : b.toNat < a.toNat
            · rw [if_neg hab, if_pos hba] at h1
              exact absurd h1 (by simp)
            · rw [if_neg hab, if_neg hba] at h1
              rw [if_neg (by omega), if_neg (by omega)] at h2
              exact ih bs cs h1 h2
        · by_cases hab : a.toNat < b.toNat
          · rw [if_neg (by omega), if_pos (by omega)] at h2
            exact absurd h2 (by simp)
          · by_cases hba : b.toNat < a.toNat
            · rw [if_neg hab, if_pos hba] at h1
              exact absurd h1 (by simp)
            · rw [if_neg (by omega), if_pos (by omega)] at h2
              exact absurd h2 (by simp)

/-- The listing comparator is total. -/
theorem entryLE_total (a b : DirEntry) : entryLE a b = true ∨ entryLE b a = true := by
  unfold entryLE
  by_cases h : a.isDir = b.isDir
  · rw [if_pos h, if_pos h.symm]
    exact lexLe_total _ _
  · rw [if_neg h, if_neg (Ne.symm h)]
    cases ha : a.isDir
    · cases hb : b.isDir
      · exact absurd (ha.trans hb.symm) h
      · exact Or.inr rfl
    · exact Or.inl rfl

/-- The listing comparator is transitive. -/
theorem entryLE_trans (a b c : DirEntry) (h1 : entryLE a b = true) (h2 : entryLE b c = true) :
    entryLE a c = true := by
  unfold entryLE at h1 h2 ⊢
  by_cases hab : a.isDir = b.isDir
  · by_cases hbc : b.isDir = c.isDir
    · rw [if_pos hab] at h1
      rw [if_pos hbc] at h2
      rw [if_pos (hab.trans hbc)]
      exact lexLe_trans _ _ _ h1 h2
    · rw [if_neg hbc] at h2
      rw [if_neg (hab ▸ hbc)]
      rw [hab]
      exact h2
  · rw [if_neg hab] at h1
    by_cases hbc : b.isDir = c.isDir
    · rw [if_neg (fun hc => hab (hc.trans hbc.symm))]
      exact h1
    · rw [if_neg hbc] at h2
      exact absurd (h1.trans h2.symm) hab

/-- Every raw listing entry keeps its directory-entry name, which never
starts with a dot. -/
theorem listRaw_no_dot (fs : FS) (now : Nat) (dir : Path) (names : List Str)
    (e : DirEntry) (he : e ∈ listRaw fs now dir names) : e.name.head? ≠ some '.' := by
  unfold listRaw at he
  rw [List.mem_filterMap] at he
  obtain ⟨name, _, heq⟩ := he
  split at heq
  · exact absurd heq (by simp)
  · injection heq with h2
    subst h2
    assumption

/-- Claim C9: the directory listing excludes dot-entries, is sorted by the
total comparator "directories first, then case-insensitive name", metadata
failures degrade to a zero-size zero-age file entry rather than aborting,
an empty directory lists as empty, and the sort is stable (any
comparator-sorted sublist of the raw entries survives in order). -/
theorem directory_listing_spec (fs : FS) (now : Nat) (dir : Path) :
    (∀ e ∈ render_directory fs now dir, e.name.head? ≠ some '.') ∧
    List.Pairwise (fun a b => entryLE a b = true) (render_directory fs now dir) ∧
    (∀ a b : DirEntry, entryLE a b = true ∨ entryLE b a = true) ∧
    (fs.readDir dir = some [] → render_directory fs now dir = []) ∧
    (∀ names, fs.readDir dir = some names →
      (∀ name ∈ names, name.head? ≠ some '.' → fs.meta (dir ++ [name]) = none →
        ({ name := name, isDir := false, size := 0, age := 0 } : DirEntry) ∈
          render_directory fs now dir) ∧
      (∀ c : List DirEntry, List.Pairwise (fun a b => entryLE a b = true) c →
        c.Sublist (listRaw fs now dir names) → c.Sublist (render_directory fs now dir))) := by
  have htot : ∀ a b : DirEntry, (entryLE a b || entryLE b a) = true := by
    intro a b
    rcases entryLE_total a b with h | h <;> simp [h]
  refine ⟨?_, ?_, entryLE_total, ?_, ?_⟩
  · intro e he
    unfold render_directory at he
    split at he
    · exact absurd he (by simp)
    · rw [List.mem_mergeSort] at he
      exact listRaw_no_dot _ _ _ _ _ he
  · unfold render_directory
    split
    · exact List.Pairwise.nil
    · exact List.sorted_mergeSort (fun a b c => entryLE_trans a b c) htot _
  · intro h
    unfold render_directory
    rw [h]
    simp [listRaw]
  · intro names hnames
    constructor
    · intro name hmem hdot hmeta
      unfold render_directory
      rw [hnames]
      rw [List.mem_mergeSort]
      unfold listRaw
      rw [List.mem_filterMap]
      refine ⟨name, hmem, ?_⟩
      rw [if_neg hdot]
      simp [hmeta]
    · intro c hc hsub
      unfold render_directory
      rw [hnames]
      exact List.sublist_mergeSort (fun a b c => entryLE_trans a b c) htot hc hsub

/-- Successful resolution only ever yields the root or a path the root is a
component-wise prefix of. -/
theorem resolve_under_root_sound (fs : FS) (root : Path) (dec : Str) (c : Path)
    (h : resolve_under_root fs root dec = some c) : root <+: c := by
  unfold resolve_under_root at h
  split at h
  · rename_i c0 heq
    split at h
    · rename_i hp
      injection h with h2
      subst h2
      exact List.isPrefixOf_iff_prefix.mp hp
    · split at h
      · injection h with h2
        subst h2
        exact List.prefix_refl _
      · exact Option.noConfusion h
  · split at h
    · injection h with h2
      subst h2
      exact List.prefix_refl _
    · exact Option.noConfusion h

/-- Static-route resolution stays under root. -/
theorem static_resolve_sound (fs : FS) (root : Path) (u : Str) (c : Path)
    (h : static_resolve fs root u = some c) : root <+: c :=
  resolve_under_root_sound fs root _ c h

/-- Upload-route resolution stays under root. -/
theorem upload_resolve_sound (fs : FS) (root : Path) (u : Str) (c : Path)
    (h : upload_resolve fs root u = some c) : root <+: c :=
  resolve_under_root_sound fs root _ c h

/-- Download-selection resolution stays under root. -/
theorem download_resolve_sound (fs : FS) (root : Path) (p : Str) (ca : Path × Str)
    (h : download_resolve fs root p = some ca) : root <+: ca.1 := by
  unfold download_resolve at h
  dsimp only at h
  split at h
  · rename_i c0 heq
    split at h
    · rename_i hp
      injection h with h2
      subst h2
      exact List.isPrefixOf_iff_prefix.mp hp
    · exact Option.noConfusion h
  · exact Option.noConfusion h

/-- The per-directory zip loop touches only checked paths, pushes only
checked directories, and never writes. -/
theorem processEntries_facts (fs : FS) (root dir : Path) (pfx : Str) :
    ∀ names : List Str,
      (∀ op ∈ (processEntries fs root dir pfx names).2.1, root <+: op.path) ∧
      (∀ pr ∈ (processEntries fs root dir pfx names).2.2.1, root <+: pr.1) ∧
      (∀ p d, FSOp.write p d ∉ (processEntries fs root dir pfx names).2.1) := by
  intro names
  induction names with
  | nil =>
    exact ⟨by simp [processEntries], by simp [processEntries], by simp [processEntries]⟩
  | cons name rest ih =>
    obtain ⟨ihOps, ihPush, ihW⟩ := ih
    unfold processEntries
    by_cases h1 : (!root.isPrefixOf (dir ++ [name])) = true
    · rw [if_pos h1]
      exact ⟨ihOps, ihPush, ihW⟩
    · rw [if_neg h1]
      have hp : root <+: dir ++ [name] := by
        rw [← List.isPrefixOf_iff_prefix]
        simpa using h1
      by_cases h2 : name.head? = some '.'
      · rw [if_pos h2]
        exact ⟨ihOps, ihPush, ihW⟩
      · rw [if_neg h2]
        dsimp only
        by_cases h3 : fs.isFile (dir ++ [name]) = true
        · rw [if_pos h3]
          cases hr : fs.read (dir ++ [name]) with
          | some d =>
            refine ⟨?_, ?_, ?_⟩
            · intro op hop
              rcases List.mem_cons.mp hop with h | h
              · subst h
                exact hp
              · exact ihOps op h
            · intro pr hpr
              exact ihPush pr hpr
            · intro p d2 hmem
              rcases List.mem_cons.mp hmem with h | h
              · exact FSOp.noConfusion h
              · exact ihW p d2 h
          | none =>
            refine ⟨?_, ?_, ?_⟩
            · intro op hop
              rcases List.mem_cons.mp hop with h | h
              · subst h
                exact hp
              · simp at h
            · intro pr hpr
              simp at hpr
            · intro p d2 hmem
              rcases List.mem_cons.mp hmem with h | h
              · exact FSOp.noConfusion h
              · simp at h
        · rw [if_neg h3]
          by_cases h4 : fs.isDir (dir ++ [name]) = true
          · rw [if_pos h4]
            refine ⟨ihOps, ?_, ihW⟩
            intro pr hpr
            rcases List.mem_cons.mp hpr with h | h
            · subst h
              exact hp
            · exact ihPush pr h
          · rw [if_neg h4]
            exact ⟨ihOps, ihPush, ihW⟩

/-- The archive walk: given a stack of under-root directories, every
operation it issues is under root and none is a write. -/
theorem zipWalk_facts (fs : FS) (root : Path) :
    ∀ (fuel : Nat) (stack : List (Path × Str)),
      (∀ pr ∈ stack, root <+: pr.1) →
      (∀ op ∈ (zipWalk fs root fuel stack).2, root <+: op.path) ∧
      (∀ p d, FSOp.write p d ∉ (zipWalk fs root fuel stack).2) := by
  intro fuel
  induction fuel with
  | zero =>
    intro stack _
    exact ⟨by simp [zipWalk], by simp [zipWalk]⟩
  | succ n ih =>
    intro stack hstack
    cases stack with
    | nil => exact ⟨by simp [zipWalk], by simp [zipWalk]⟩
    | cons top rest =>
      obtain ⟨dir, pfx⟩ := top
      have hdir : root <+: dir := hstack (dir, pfx) (List.mem_cons_self _ _)
      unfold zipWalk
      cases hrd : fs.readDir dir with
      | none =>
        obtain ⟨ih1, ih2⟩ := ih rest (fun pr hpr => hstack pr (List.mem_cons_of_mem _ hpr))
        dsimp only
        refine ⟨?_, ?_⟩
        · intro op hop
          rcases List.mem_cons.mp hop with h | h
          · subst h
            exact hdir
          · exact ih1 op h
        · intro p d hmem
          rcases List.mem_cons.mp hmem with h | h
          · exact FSOp.noConfusion h
          · exact ih2 p d h
      | some names =>
        obtain ⟨pe1, pe2, pe3⟩ := processEntries_facts fs root dir pfx names
        dsimp only
        by_cases hok : (processEntries fs root dir pfx names).2.2.2 = true
        · rw [if_pos hok]
          have hstack2 :
              ∀ pr ∈ (processEntries fs root dir pfx names).2.2.1.reverse ++ rest,
                root <+: pr.1 := by
            intro pr hpr
            rcases List.mem_append.mp hpr with h | h
            · exact pe2 pr (List.mem_reverse.mp h)
            · exact hstack pr (List.mem_cons_of_mem _ h)
          obtain ⟨ih1, ih2⟩ := ih _ hstack2
          refine ⟨?_, ?_⟩
          · intro op hop
            rcases List.mem_cons.mp hop with h | h
            · subst h
              exact hdir
            · rcases List.mem_append.mp h with h' | h'
              · exact pe1 op h'
              · exact ih1 op h'
          · intro p d hmem
            rcases List.mem_cons.mp hmem with h | h
            · exact FSOp.noConfusion h
            · rcases List.mem_append.mp h with h' | h'
              · exact pe3 p d h'
              · exact ih2 p d h'
        · rw [if_neg hok]
          refine ⟨?_, ?_⟩
          · intro op hop
            rcases List.mem_cons.mp hop with h | h
            · subst h
              exact hdir
            · exact pe1 op h
          · intro p d hmem
            rcases List.mem_cons.mp hmem with h | h
            · exact FSOp.noConfusion h
            · exact pe3 p d h

/-- Adding one resolved path to the archive touches only under-root paths
and never writes. -/
theorem add_path_to_zip_facts (fs : FS) (root : Path) (fuel : Nat) (p : Path) (arc : Str)
    (hp : root <+: p) :
    (∀ op ∈ (add_path_to_zip fs root fuel p arc).2, root <+: op.path) ∧
    (∀ q d, FSOp.write q d ∉ (add_path_to_zip fs root fuel p arc).2) := by
  unfold add_path_to_zip
  by_cases h1 : fs.isFile p = true
  · rw [if_pos h1]
    cases hr : fs.read p with
    | some d =>
      refine ⟨?_, ?_⟩
      · intro op hop
        simp only [List.mem_singleton] at hop
        subst hop
        exact hp
      · intro q d2 hmem
        simp only [List.mem_singleton] at hmem
        exact FSOp.noConfusion hmem
    | none =>
      refine ⟨?_, ?_⟩
      · intro op hop
        simp only [List.mem_singleton] at hop
        subst hop
        exact hp
      · intro q d2 hmem
        simp only [List.mem_singleton] at hmem
        exact FSOp.noConfusion hmem
  · rw [if_neg h1]
    by_cases h2 : fs.isDir p = true
    · rw [if_pos h2]
      refine zipWalk_facts fs root fuel [(p, arc)] ?_
      intro pr hpr
      simp only [List.mem_singleton] at hpr
      subst hpr
      exact hp
    · rw [if_neg h2]
      exact ⟨by simp, by simp⟩

/-- The whole archive build touches only under-root paths and never writes. -/
theorem buildZip_facts (fs : FS) (root : Path) (fuel : Nat) :
    ∀ sels : List Str,
      (∀ op ∈ (buildZip fs root fuel sels).2, root <+: op.path) ∧
      (∀ q d, FSOp.write q d ∉ (buildZip fs root fuel sels).2) := by
  intro sels
  induction sels with
  | nil => exact ⟨by simp [buildZip], by simp [buildZip]⟩
  | cons p rest ih =>
    obtain ⟨i1, i2⟩ := ih
    unfold buildZip
    cases hres : download_resolve fs root p with
    | none => exact ⟨i1, i2⟩
    | some ca =>
      obtain ⟨a1, a2⟩ :=
        add_path_to_zip_facts fs root fuel ca.1 ca.2 (download_resolve_sound fs root p ca hres)
      dsimp only
      refine ⟨?_, ?_⟩
      · intro op hop
        rcases List.mem_append.mp hop with h | h
        · exact a1 op h
        · exact i1 op h
      · intro q d hmem
        rcases List.mem_append.mp hmem with h | h
        · exact a2 q d h
        · exact i2 q d h

/-- Every operation of the static handler is under root, and none is a
write. -/
theorem serveStatic_facts (fs : FS) (cfg : ServerConfig) (now : Nat) (req : Request) :
    (∀ op ∈ (serveStatic fs cfg now req).ops, cfg.root <+: op.path) ∧
    (∀ p d, FSOp.write p d ∉ (serveStatic fs cfg now req).ops) := by
  unfold serveStatic
  cases hres : static_resolve fs cfg.root req.path with
  | none => exact ⟨by simp [textOut], by simp [textOut]⟩
  | some c =>
    have hp : cfg.root <+: c := static_resolve_sound fs cfg.root req.path c hres
    have hidx : cfg.root <+: c ++ [S "index.html"] := hp.trans (List.prefix_append _ _)
    dsimp only
    by_cases h1 : fs.isDir c = true
    · rw [if_pos h1]
      by_cases h2 : fs.pathExists (c ++ [S "index.html"]) = true
      · rw [if_pos h2]
        cases hr : fs.read (c ++ [S "index.html"]) with
        | some _ =>
          refine ⟨?_, ?_⟩
          · intro op hop
            simp only [textOut, List.mem_singleton] at hop
            subst hop
            exact hidx
          · intro p d hmem
            simp only [textOut, List.mem_singleton] at hmem
            exact FSOp.noConfusion hmem
        | none =>
          refine ⟨?_, ?_⟩
          · intro op hop
            rcases List.mem_cons.mp hop with h | h
            · subst h
              exact hidx
            · simp only [List.mem_singleton] at h
              subst h
              exact hp
          · intro p d hmem
            rcases List.mem_cons.mp hmem with h | h
            · exact FSOp.noConfusion h
            · simp only [List.mem_singleton] at h
              exact FSOp.noConfusion h
      · rw [if_neg h2]
        refine ⟨?_, ?_⟩
        · intro op hop
          simp only [List.mem_singleton] at hop
          subst hop
          exact hp
        · intro p d hmem
          simp only [List.mem_singleton] at hmem
          exact FSOp.noConfusion hmem
    · rw [if_neg h1]
      cases hr : fs.read c with
      | some _ =>
        refine ⟨?_, ?_⟩
        · intro op hop
          simp only [textOut, List.mem_singleton] at hop
          subst hop
          exact hp
        · intro p d hmem
          simp only [textOut, List.mem_singleton] at hmem
          exact FSOp.noConfusion hmem
      | none =>
        refine ⟨?_, ?_⟩
        · intro op hop
          simp only [textOut, List.mem_singleton] at hop
          subst hop
          exact hp
        · intro p d hmem
          simp only [textOut, List.mem_singleton] at hmem
          exact FSOp.noConfusion hmem

/-- A successful per-part upload step is exactly a write of the part's data
to the sanitized name inside the resolved directory, and the name survived
the empty/dot checks. -/
theorem uploadWriteOp_some (fs : FS) (root : Path) (alnum : Char → Bool) (canonical : Path)
    (f : UploadedFile) (op : FSOp) (h : uploadWriteOp fs root alnum canonical f = some op) :
    op = FSOp.write (canonical ++ [sanitize alnum f.filename]) f.data ∧
    sanitize alnum f.filename ≠ [] ∧ sanitize alnum f.filename ≠ S "." ∧
    sanitize alnum f.filename ≠ S ".." := by
  unfold uploadWriteOp at h
  dsimp only at h
  split at h
  · exact Option.noConfusion h
  · rename_i hguard
    push_neg at hguard
    obtain ⟨hg1, hg2, hg3⟩ := hguard
    split at h
    · split at h
      · exact Option.noConfusion h
      · split at h
        · injection h with h2
          exact ⟨h2.symm, hg1, hg2, hg3⟩
        · exact Option.noConfusion h
    · split at h
      · injection h with h2
        exact ⟨h2.symm, hg1, hg2, hg3⟩
      · exact Option.noConfusion h

/-- Every operation of the upload handler is a write into the resolved
directory under a sanitized, non-degenerate filename. -/
theorem serveUpload_ops_facts (fs : FS) (cfg : ServerConfig) (alnum : Char → Bool)
    (req : Request) :
    ∀ op ∈ (serveUpload fs cfg alnum req).ops,
      ∃ c name d, upload_resolve fs cfg.root req.path = some c ∧
        op = FSOp.write (c ++ [name]) d ∧
        (∃ f : UploadedFile, name = sanitize alnum f.filename) ∧
        name ≠ [] ∧ name ≠ S "." ∧ name ≠ S ".." := by
  intro op hop
  unfold serveUpload at hop
  split at hop
  · simp [textOut] at hop
  · rename_i c heq
    split at hop
    · simp [textOut] at hop
    · split at hop
      · simp [textOut] at hop
      · split at hop
        · simp [textOut] at hop
        · split at hop
          · simp [textOut] at hop
          · simp only [textOut, List.mem_filterMap] at hop
            obtain ⟨f, _, hf⟩ := hop
            obtain ⟨hop2, hg1, hg2, hg3⟩ := uploadWriteOp_some fs cfg.root alnum c f op hf
            exact ⟨c, sanitize alnum f.filename, f.data, heq, hop2, ⟨f, rfl⟩, hg1, hg2, hg3⟩

/-- The download handler's operations come from `buildZip`: all under root,
never a write. -/
theorem serveDownload_facts (fs : FS) (cfg : ServerConfig) (fuel : Nat) (req : Request) :
    (∀ op ∈ (serveDownload fs cfg fuel req).ops, cfg.root <+: op.path) ∧
    (∀ p d, FSOp.write p d ∉ (serveDownload fs cfg fuel req).ops) := by
  unfold serveDownload
  dsimp only
  split
  · exact ⟨by simp [textOut], by simp [textOut]⟩
  · exact buildZip_facts fs cfg.root fuel _

/-- When the auth gate passes, `serve` is the router. -/
theorem serve_routes_of_auth (fs : FS) (cfg : ServerConfig) (alnum : Char → Bool)
    (now fuel : Nat) (req : Request) (h : authPasses cfg req = true) :
    serve fs cfg alnum now fuel req = serveRoutes fs cfg alnum now fuel req := by
  unfold serve
  cases hc : cfg.auth with
  | none => rfl
  | some e =>
    have h2 : check_auth req e = true := by
      unfold authPasses at h
      rw [hc] at h
      simpa using h
    simp [h2]

/-- Every operation the router issues is under root. -/
theorem serveRoutes_ops_under (fs : FS) (cfg : ServerConfig) (alnum : Char → Bool)
    (now fuel : Nat) (req : Request) :
    ∀ op ∈ (serveRoutes fs cfg alnum now fuel req).ops, cfg.root <+: op.path := by
  intro op hop
  unfold serveRoutes at hop
  split at hop
  · obtain ⟨c, name, d, heq, hop2, _⟩ := serveUpload_ops_facts fs cfg alnum req op hop
    subst hop2
    exact (upload_resolve_sound fs cfg.root req.path c heq).trans (List.prefix_append _ _)
  · split at hop
    · exact (serveDownload_facts fs cfg fuel req).1 op hop
    · exact (serveStatic_facts fs cfg now req).1 op hop

/-- A write issued by the router comes from the upload handler. -/
theorem serveRoutes_write_mem (fs : FS) (cfg : ServerConfig) (alnum : Char → Bool)
    (now fuel : Nat) (req : Request) (p : Path) (d : List Nat)
    (h : FSOp.write p d ∈ (serveRoutes fs cfg alnum now fuel req).ops) :
    FSOp.write p d ∈ (serveUpload fs cfg alnum req).ops := by
  unfold serveRoutes at h
  split at h
  · exact h
  · split at h
    · exact absurd h ((serveDownload_facts fs cfg fuel req).2 p d)
    · exact absurd h ((serveStatic_facts fs cfg now req).2 p d)

/-- Claim C1: no filesystem operation of any request ever touches a path
outside root (component-wise), and a request whose percent-decoded,
canonicalized path escapes the root is answered (404 on the static route,
400 on the upload route) with no filesystem operation at all. -/
theorem sandbox_no_escape (fs : FS) (cfg : ServerConfig) (alnum : Char → Bool)
    (now fuel : Nat) (req : Request) :
    (∀ op ∈ (serve fs cfg alnum now fuel req).ops, cfg.root <+: op.path) ∧
    (authPasses cfg req = true → isUploadRoute req = false → isDownloadRoute req = false →
      static_resolve fs cfg.root req.path = none →
      (serve fs cfg alnum now fuel req).status = 404 ∧
      (serve fs cfg alnum now fuel req).ops = []) ∧
    (authPasses cfg req = true → isUploadRoute req = true →
      upload_resolve fs cfg.root req.path = none →
      (serve fs cfg alnum now fuel req).status = 400 ∧
      (serve fs cfg alnum now fuel req).ops = []) := by
  refine ⟨?_, ?_, ?_⟩
  · intro op hop
    unfold serve at hop
    split at hop
    · split at hop
      · simp [auth_required_response] at hop
      · exact serveRoutes_ops_under fs cfg alnum now fuel req op hop
    · exact serveRoutes_ops_under fs cfg alnum now fuel req op hop
  · intro hauth hup hdn hres
    rw [serve_routes_of_auth fs cfg alnum now fuel req hauth]
    unfold serveRoutes
    rw [if_neg (by simp [hup]), if_neg (by simp [hdn])]
    unfold serveStatic
    rw [hres]
    exact ⟨rfl, rfl⟩
  · intro hauth hup hres
    rw [serve_routes_of_auth fs cfg alnum now fuel req hauth]
    unfold serveRoutes
    rw [if_pos hup]
    unfold serveUpload
    rw [hres]
    exact ⟨rfl, rfl⟩

/-- Witness for C1: the traversal request `/%2e%2e/secret` against the demo
filesystem is answered 404 with no filesystem operation. -/
theorem sandbox_no_escape_witness :
    authPasses cfgDemo reqTravDemo = true ∧
    isUploadRoute reqTravDemo = false ∧
    isDownloadRoute reqTravDemo = false ∧
    static_resolve fsDemo cfgDemo.root reqTravDemo.path = none ∧
    (serve fsDemo cfgDemo Char.isAlphanum 100 10 reqTravDemo).status = 404 ∧
    (serve fsDemo cfgDemo Char.isAlphanum 100 10 reqTravDemo).ops = [] :=
  ⟨rfl, rfl, rfl, by decide,
    ((sandbox_no_escape fsDemo cfgDemo Char.isAlphanum 100 10 reqTravDemo).2.1
      rfl rfl rfl (by decide)).1,
    ((sandbox_no_escape fsDemo cfgDemo Char.isAlphanum 100 10 reqTravDemo).2.1
      rfl rfl rfl (by decide)).2⟩

/-- Characters surviving sanitisation are in the allowed class. -/
theorem sanitize_chars (alnum : Char → Bool) (n : Str) :
    ∀ ch ∈ sanitize alnum n,
      alnum ch = true ∨ ch = '.' ∨ ch = '-' ∨ ch = '_' ∨ ch = ' ' := by
  intro ch hc
  unfold sanitize at hc
  rw [List.mem_map] at hc
  obtain ⟨c0, _, heq⟩ := hc
  by_cases hg : (alnum c0 || c0 == '.' || c0 == '-' || c0 == '_' || c0 == ' ') = true
  · rw [if_pos hg] at heq
    subst heq
    have := hg
    simp only [Bool.or_eq_true, beq_iff_eq] at this
    tauto
  · rw [if_neg hg] at heq
    subst heq
    right
    right
    right
    left
    rfl

/-- Claim C5: every filename the upload handler writes is the sanitized
name — all characters alphanumeric (per the supplied classifier) or
dot/dash/underscore/space — and is never empty, `.` or `..`. -/
theorem upload_filenames_safe (fs : FS) (cfg : ServerConfig) (alnum : Char → Bool)
    (now fuel : Nat) (req : Request) (p : Path) (d : List Nat)
    (h : FSOp.write p d ∈ (serve fs cfg alnum now fuel req).ops) :
    ∃ dir name, p = dir ++ [name] ∧
      (∀ ch ∈ name, alnum ch = true ∨ ch = '.' ∨ ch = '-' ∨ ch = '_' ∨ ch = ' ') ∧
      name ≠ [] ∧ name ≠ S "." ∧ name ≠ S ".." := by
  have h2 : FSOp.write p d ∈ (serveUpload fs cfg alnum req).ops := by
    unfold serve at h
    split at h
    · split at h
      · simp [auth_required_response] at h
      · exact serveRoutes_write_mem fs cfg alnum now fuel req p d h
    · exact serveRoutes_write_mem fs cfg alnum now fuel req p d h
  obtain ⟨c, name, d2, _, hop, ⟨f, hname⟩, hg1, hg2, hg3⟩ :=
    serveUpload_ops_facts fs cfg alnum req _ h2
  injection hop with hp hd
  refine ⟨c, name, hp, ?_, hg1, hg2, hg3⟩
  rw [hname]
  exact sanitize_chars alnum f.filename

/-- Witness for C5: the demo upload writes `a.txt`, and the theorem yields
its decomposition into directory and safe filename. -/
theorem upload_filenames_safe_witness :
    FSOp.write [S "srv", S "a.txt"] (encodeUtf8 (S "hello")) ∈
      (serve fsDemo cfgDemo Char.isAlphanum 100 10 (upReqDemo (S "hello"))).ops ∧
    ∃ dir name, ([S "srv", S "a.txt"] : Path) = dir ++ [name] ∧
      (∀ ch ∈ name, Char.isAlphanum ch = true ∨ ch = '.' ∨ ch = '-' ∨ ch = '_' ∨ ch = ' ') ∧
      name ≠ [] ∧ name ≠ S "." ∧ name ≠ S ".." :=
  ⟨by decide,
    upload_filenames_safe fsDemo cfgDemo Char.isAlphanum 100 10 (upReqDemo (S "hello"))
      [S "srv", S "a.txt"] (encodeUtf8 (S "hello")) (by decide)⟩

/-- Claim C7: an upload whose body exceeds 500 MiB writes no file; when the
request otherwise passes the gate, resolves to a directory and carries a
boundary, it is answered 413 Payload Too Large. -/
theorem upload_size_ceiling (fs : FS) (cfg : ServerConfig) (alnum : Char → Bool)
    (now fuel : Nat) (req : Request)
    (hroute : isUploadRoute req = true)
    (hbig : 500 * 1024 * 1024 < req.body.length) :
    (∀ p d, FSOp.write p d ∉ (serve fs cfg alnum now fuel req).ops) ∧
    (authPasses cfg req = true →
      ∀ c, upload_resolve fs cfg.root req.path = some c → fs.isDir c = true →
        (get_boundary req).isSome = true →
        (serve fs cfg alnum now fuel req).status = 413) := by
  have hopsnil : (serveUpload fs cfg alnum req).ops = [] := by
    unfold serveUpload
    repeat' split
    all_goals first
      | rfl
      | (exfalso; omega)
  constructor
  · intro p d hmem
    unfold serve at hmem
    split at hmem
    · split at hmem
      · simp [auth_required_response] at hmem
      · have h2 := serveRoutes_write_mem fs cfg alnum now fuel req p d hmem
        rw [hopsnil] at h2
        simp at h2
    · have h2 := serveRoutes_write_mem fs cfg alnum now fuel req p d hmem
      rw [hopsnil] at h2
      simp at h2
  · intro hauth c hres hdir hb
    rw [serve_routes_of_auth fs cfg alnum now fuel req hauth]
    unfold serveRoutes
    rw [if_pos hroute]
    unfold serveUpload
    rw [hres]
    dsimp only
    rw [if_neg (by simp [hdir])]
    cases hgb : get_boundary req with
    | none =>
      rw [hgb] at hb
      simp at hb
    | some b =>
      dsimp only
      rw [if_pos hbig]
      rfl

/-- Witness for C7: the demo upload with a body of 500 MiB + 1 zero bytes
is answered 413. -/
theorem upload_size_ceiling_witness :
    isUploadRoute reqBigDemo = true ∧
    500 * 1024 * 1024 < reqBigDemo.body.length ∧
    (serve fsDemo cfgDemo Char.isAlphanum 100 10 reqBigDemo).status = 413 := by
  have h1 : isUploadRoute reqBigDemo = true := by decide
  have h2 : 500 * 1024 * 1024 < reqBigDemo.body.length := by
    show 500 * 1024 * 1024 < (List.replicate (500 * 1024 * 1024 + 1) 0).length
    rw [List.length_replicate]
    omega
  exact ⟨h1, h2,
    (upload_size_ceiling fsDemo cfgDemo Char.isAlphanum 100 10 reqBigDemo h1 h2).2
      rfl demoRoot (by decide) (by decide) (by decide)⟩

/-- Claim C4: download selections are independent — an entry that fails
resolution is skipped without affecting the rest or failing the request, a
resolved file contributes exactly one archive entry named by its final path
component, the handler answers 200 whenever the selection list is nonempty,
and concretely selecting one file plus one directory holding two files
yields exactly three entries with `/`-joined names. -/
theorem archive_selection_independent :
    (∀ (fs : FS) (root : Path) (fuel : Nat) (p : Str) (rest : List Str),
      download_resolve fs root p = none →
      buildZip fs root fuel (p :: rest) = buildZip fs root fuel rest) ∧
    (∀ (fs : FS) (root : Path) (fuel : Nat) (p : Str) (rest : List Str) (c : Path)
        (arc : Str) (d : List Nat),
      download_resolve fs root p = some (c, arc) → fs.isFile c = true → fs.read c = some d →
      (buildZip fs root fuel (p :: rest)).1 = (arc, d) :: (buildZip fs root fuel rest).1) ∧
    (∀ (fs : FS) (cfg : ServerConfig) (alnum : Char → Bool) (now fuel : Nat) (req : Request),
      authPasses cfg req = true → isUploadRoute req = false → isDownloadRoute req = true →
      extract_json_string_array (lossyDecode req.body) (S "files") ≠ [] →
      (serve fs cfg alnum now fuel req).status = 200) ∧
    (serve fsDemo cfgDemo Char.isAlphanum 100 10 reqDLDemo).zips =
      [(S "f.txt", [70]), (S "d/x.txt", [1]), (S "d/y.txt", [2])] := by
  refine ⟨?_, ?_, ?_, by decide⟩
  · intro fs root fuel p rest h
    conv_lhs => unfold buildZip
    rw [h]
  · intro fs root fuel p rest c arc d hres hfile hread
    conv_lhs => unfold buildZip
    rw [hres]
    dsimp only
    unfold add_path_to_zip
    rw [if_pos hfile, hread]
    simp
  · intro fs cfg alnum now fuel req hauth hup hdn hne
    rw [serve_routes_of_auth fs cfg alnum now fuel req hauth]
    unfold serveRoutes
    rw [if_neg (by simp [hup]), if_pos hdn]
    unfold serveDownload
    dsimp only
    rw [if_neg hne]

/-- Witness for C4: an unresolvable selection entry is dropped from a
concrete build without failing it. -/
theorem archive_selection_independent_witness :
    download_resolve fsDemo demoRoot (S "/nope") = none ∧
    buildZip fsDemo demoRoot 10 [S "/nope", S "/f.txt"] =
      buildZip fsDemo demoRoot 10 [S "/f.txt"] :=
  ⟨by decide,
    archive_selection_independent.1 fsDemo demoRoot 10 (S "/nope") [S "/f.txt"] (by decide)⟩

/-- Witness for C9: the demo filesystem's root listing — the dot-free
entries, sorted directories-first, with `g.bin`'s failed metadata degraded
to a zero-size zero-age file entry. -/
theorem directory_listing_spec_witness :
    fsDemo.readDir demoRoot = some [S "f.txt", S "d", S "g.bin"] ∧
    ({ name := S "g.bin", isDir := false, size := 0, age := 0 } : DirEntry) ∈
      render_directory fsDemo 100 demoRoot :=
  ⟨rfl,
    ((directory_listing_spec fsDemo 100 demoRoot).2.2.2.2 [S "f.txt", S "d", S "g.bin"]
      rfl).1 (S "g.bin") (by decide) (by decide) (by decide)⟩

end Leak
